import Mathlib

/-!
Verification of the Lance Arrow file-format adapter
(`cpp/src/lance/arrow/file_lance.cc`) against its specification.

The adapter plugs the Lance columnar file format into Arrow's dataset
framework.  The file under verification implements:
`LanceFileFormat::type_name`, `Equals`, `IsSupported`, `Inspect`,
`ScanBatchesAsync`, `MakeWriter`, `DefaultWriteOptions`,
`FileWriteOptions::Validate`, `LanceFragmentScanOptions::type_name`,
and `IsLanceFragmentScanOptions`.

The collaborators the adapter calls into (`lance::io::FileReader`,
`lance::io::RecordBatchReader`, `lance::io::FileWriter`, Arrow itself)
are embedded abstractly: each is represented by the result it hands
back to the adapter.  Where a collaborator is Lance code whose source
is not available here, the definition is modelled from the spec and
says so in its doc comment.
-/

deriving instance DecidableEq for Except

namespace Lance

/-- Arrow's Status, restricted to the outcomes the adapter produces or
propagates.  `Invalid` is `::arrow::Status::Invalid(msg)`, the
invalid-configuration error; `IOErr` stands for every other failure a
collaborator can hand back (open failure, corrupt file, ...). -/
inductive Status where
  | OK : Status
  | Invalid : String → Status
  | IOErr : String → Status
deriving DecidableEq, Repr

/-- An Arrow in-memory schema (`::arrow::Schema`), kept abstract: only
its identity matters to the adapter, never its contents. -/
structure ArrowSchema where
  fields : List String
deriving DecidableEq, Repr

/-- A Lance logical schema (`lance::format::Schema`), represented by
what its `ToArrow()` conversion returns to the adapter. -/
structure FormatSchema where
  toArrowResult : Except Status ArrowSchema
deriving DecidableEq, Repr

/-- `lance::format::Schema::ToArrow()`: convert the logical schema to
an Arrow schema; may fail, and the adapter propagates the failure. -/
def FormatSchema.ToArrow (s : FormatSchema) : Except Status ArrowSchema :=
  s.toArrowResult

/-- A Lance manifest (`lance::format::Manifest`): the adapter only ever
asks it for its schema. -/
structure Manifest where
  schema : FormatSchema
deriving DecidableEq, Repr

/-- An opened readable file (`::arrow::io::RandomAccessFile`),
represented by what constructing a `lance::io::FileReader` on it and
calling `Open()` yields: either the file's manifest or an error. -/
structure InFile where
  readerOpenResult : Except Status Manifest
deriving DecidableEq, Repr

/-- An unopened file source (`::arrow::dataset::FileSource`),
represented by what `source.Open()` returns. -/
structure FileSource where
  openResult : Except Status InFile
deriving DecidableEq, Repr

/-- `LanceFileFormat::Impl`: the format object's only state, a cached
manifest pointer that starts out null. -/
structure ImplState where
  manifest : Option Manifest
deriving DecidableEq, Repr

/-- The `LanceFileFormat` object: `impl_` holding the manifest cache. -/
structure LanceFileFormat where
  impl : ImplState
deriving DecidableEq, Repr

/-- `LanceFileFormat::Make()` / the constructor: the cache starts empty. -/
def LanceFileFormat.Make : LanceFileFormat := ⟨⟨none⟩⟩

/-- The constant `kLanceFormatTypeName`. -/
def kLanceFormatTypeName : String := "lance"

/-- `LanceFileFormat::type_name()`: returns the fixed format name,
ignoring all instance state. -/
def LanceFileFormat.type_name (_ : LanceFileFormat) : String :=
  kLanceFormatTypeName

/-- Any Arrow dataset file format (`::arrow::dataset::FileFormat`),
represented by its type name - the only thing `Equals` consults. -/
structure FileFormat where
  typeName : String
deriving DecidableEq, Repr

/-- The virtual `FileFormat::type_name()` of an arbitrary format. -/
def FileFormat.type_name (f : FileFormat) : String := f.typeName

/-- `LanceFileFormat::Equals(other)`: compares the two type names and
nothing else. -/
def LanceFileFormat.Equals (a : LanceFileFormat) (other : FileFormat) : Bool :=
  a.type_name == other.type_name

/-- `LanceFileFormat::IsSupported(source)`: unconditionally true. -/
def LanceFileFormat.IsSupported (_ : LanceFileFormat) (_ : FileSource) :
    Except Status Bool :=
  .ok true

/-- `LanceFileFormat::Inspect(source)`: if a manifest is cached, return
its schema; otherwise open the source, open a `FileReader` on it, cache
the manifest it loaded, and return that manifest's schema.  The second
component is the format object after the call (`Inspect` mutates only
the cache). -/
def LanceFileFormat.Inspect (fmt : LanceFileFormat) (source : FileSource) :
    Except Status ArrowSchema × LanceFileFormat :=
  match fmt.impl.manifest with
  | some m => (m.schema.ToArrow, fmt)
  | none =>
    match source.openResult with
    | .error e => (.error e, fmt)
    | .ok infile =>
      match infile.readerOpenResult with
      | .error e => (.error e, fmt)
      | .ok m => (m.schema.ToArrow, ⟨⟨some m⟩⟩)

/-- Lance's `FileWriteOptions` (extends Arrow's): the adapter file only
touches `batch_size`, a signed 64-bit count modelled as `Int`. -/
structure FileWriteOptions where
  batch_size : Int
deriving DecidableEq, Repr

/-- `FileWriteOptions::Validate()`: invalid iff `batch_size <= 1`. -/
def FileWriteOptions.Validate (o : FileWriteOptions) : Status :=
  if o.batch_size ≤ 1 then Status.Invalid "Batch size must be greater than 1"
  else Status.OK

/-- A destination sink (`::arrow::io::OutputStream`), abstract. -/
structure OutputStream where
  sinkId : Nat
deriving DecidableEq, Repr

/-- `::arrow::fs::FileLocator`, abstract. -/
structure FileLocator where
  path : String
deriving DecidableEq, Repr

/-- The `lance::io::FileWriter` the adapter constructs: it is built
directly from the four arguments, with no validation in between. -/
structure FileWriter where
  schema : ArrowSchema
  options : FileWriteOptions
  destination : OutputStream
  locator : FileLocator
deriving DecidableEq, Repr

/-- `LanceFileFormat::MakeWriter(destination, schema, options,
destination_locator)`: constructs and returns a `FileWriter`
unconditionally - the body is a single `new io::FileWriter(...)` with
no call to `Validate` and no failure path. -/
def LanceFileFormat.MakeWriter (_ : LanceFileFormat) (destination : OutputStream)
    (schema : ArrowSchema) (options : FileWriteOptions) (locator : FileLocator) :
    Except Status FileWriter :=
  .ok ⟨schema, options, destination, locator⟩

/-- `LanceFileFormat::DefaultWriteOptions()` returns fresh
`FileWriteOptions`; the default `batch_size` lives in the header, which
is not part of the verified file, so it is a parameter here. -/
def LanceFileFormat.DefaultWriteOptions (defaultBatchSize : Int) : FileWriteOptions :=
  ⟨defaultBatchSize⟩

/-- Any `::arrow::dataset::FragmentScanOptions`, represented by its
type name - the only thing `IsLanceFragmentScanOptions` consults. -/
structure FragmentScanOptions where
  typeName : String
deriving DecidableEq, Repr

/-- The virtual `FragmentScanOptions::type_name()`. -/
def FragmentScanOptions.type_name (f : FragmentScanOptions) : String := f.typeName

/-- Lance's own `LanceFragmentScanOptions`; the adapter file only
defines its `type_name`, so no other state is modelled. -/
structure LanceFragmentScanOptions where
deriving DecidableEq, Repr

/-- `LanceFragmentScanOptions::type_name()`: the fixed format name. -/
def LanceFragmentScanOptions.type_name (_ : LanceFragmentScanOptions) : String :=
  kLanceFormatTypeName

/-- `IsLanceFragmentScanOptions(fso)`: true iff the dynamic type name
is the Lance constant. -/
def IsLanceFragmentScanOptions (fso : FragmentScanOptions) : Bool :=
  fso.type_name == kLanceFormatTypeName

/-- A thread pool, identified only by which pool it is.  Arrow's
`::arrow::internal::GetCpuThreadPool()` returns the one process-wide
CPU pool on every call, so that pool is a single fixed value here. -/
structure ThreadPool where
  poolId : Nat
deriving DecidableEq, Repr

/-- The process-wide CPU thread pool
(`::arrow::internal::GetCpuThreadPool()`). -/
def GetCpuThreadPool : ThreadPool := ⟨0⟩

/-- `::arrow::dataset::ScanOptions` as the adapter sees them: an opaque
value passed through to the `RecordBatchReader`. -/
structure ScanOptions where
  batchSize : Int
deriving DecidableEq, Repr

/-- `::arrow::dataset::FileFragment`: the adapter only calls
`file->source()`. -/
structure FileFragment where
  source : FileSource
deriving DecidableEq, Repr

/-- A `lance::io::FileReader` as handed to the `RecordBatchReader`: the
adapter-relevant state is which manifest it holds. -/
structure FileReader where
  manifest : Manifest
deriving DecidableEq, Repr

/-- Modelled from the spec: `lance::io::FileReader::Make(infile,
manifest)` is Lance code not in the verified file.  Per the spec's
Reader contract (one manifest per open handle, loaded lazily and
memoized), it adopts the supplied manifest when one is given and
otherwise loads the file's own manifest, failing as the load fails. -/
def FileReader.Make (infile : InFile) (manifest : Option Manifest) :
    Except Status FileReader :=
  match manifest with
  | some m => .ok ⟨m⟩
  | none =>
    match infile.readerOpenResult with
    | .error e => .error e
    | .ok m => .ok ⟨m⟩

/-- The `lance::io::RecordBatchReader` the adapter constructs, holding
exactly what the adapter passes in: the reader, the scan options, and
the thread pool. -/
structure RecordBatchReader where
  reader : FileReader
  options : ScanOptions
  pool : ThreadPool
deriving DecidableEq, Repr

/-- The `::arrow::RecordBatchGenerator` returned to the host framework,
wrapping the batch reader it was moved from. -/
structure RecordBatchGenerator where
  batchReader : RecordBatchReader
deriving DecidableEq, Repr

/-- `LanceFileFormat::ScanBatchesAsync(options, file)`: open the
fragment's source, build a `FileReader` handing it the cached manifest
(which may be null), wrap it in a `RecordBatchReader` scheduled on the
process-wide CPU pool, and return the generator.  The method is const:
the second component is the format object after the call, always
unchanged.  (`RecordBatchReader::Open` is Lance code not in the
verified file; the spec gives the generator no construction-time
failure of its own, so it is modelled as succeeding.) -/
def LanceFileFormat.ScanBatchesAsync (fmt : LanceFileFormat) (options : ScanOptions)
    (file : FileFragment) : Except Status RecordBatchGenerator × LanceFileFormat :=
  let result : Except Status RecordBatchGenerator :=
    match file.source.openResult with
    | .error e => .error e
    | .ok infile =>
      match FileReader.Make infile fmt.impl.manifest with
      | .error e => .error e
      | .ok reader => .ok ⟨⟨reader, options, GetCpuThreadPool⟩⟩
  (result, fmt)

/-- A record batch, abstracted to the rows it carries. -/
structure Batch where
  rows : List Nat
deriving DecidableEq, Repr

/-- Modelled from the spec: the in-order release logic of
`lance::io::RecordBatchReader` (its source is not in the verified
file).  Per the spec, out-of-order worker completions are buffered and
released in sequence.  `readyRun arrived next fuel` is the contiguous
run of work-unit indices `next, next+1, ...` that have all completed
(`fuel` only bounds the recursion; it never cuts a run short when it
exceeds the number of distinct completed indices). -/
def readyRun (arrived : List Nat) (next fuel : Nat) : List Nat :=
  match fuel with
  | 0 => []
  | fuel' + 1 =>
    if next ∈ arrived then next :: readyRun arrived (next + 1) fuel'
    else []

/-- Modelled from the spec: the generator's delivery loop.  Work units
complete in `pending` order; each completion is recorded and every
buffered unit that is now next in file order is released at once. -/
def releaseGo (arrived : List Nat) (next : Nat) : List Nat → List Nat
  | [] => []
  | i :: rest =>
    let arrived' := i :: arrived
    let out := readyRun arrived' next (arrived'.length + 1)
    out ++ releaseGo arrived' (next + out.length) rest

/-- The order (by work-unit index) in which batches are delivered to
the consumer, given the order in which worker threads completed them. -/
def deliveredOrder (completionOrder : List Nat) : List Nat :=
  releaseGo [] 0 completionOrder

/-- The batches the consumer receives, in delivery order; work unit `i`
decodes batch `batch i`. -/
def deliveredBatches (completionOrder : List Nat) (batch : Nat → Batch) : List Batch :=
  (deliveredOrder completionOrder).map batch

/-- The file's full row sequence: the rows of batches `0..n-1` in file
order. -/
def fileRows (n : Nat) (batch : Nat → Batch) : List Nat :=
  (List.range n).flatMap (fun i => (batch i).rows)

/-- Claim C2 (confirmed): `FileWriteOptions::Validate` returns the
invalid-configuration error exactly when `batch_size <= 1`, returns OK
exactly when `batch_size > 1`, and in particular `batch_size = 2`
validates successfully. -/
theorem validate_invalid_iff_batch_size_le_one :
    ∀ o : FileWriteOptions,
      (o.Validate = Status.Invalid "Batch size must be greater than 1" ↔ o.batch_size ≤ 1)
      ∧ (o.Validate = Status.OK ↔ 1 < o.batch_size)
      ∧ (FileWriteOptions.mk 2).Validate = Status.OK := by
  intro o
  refine ⟨?_, ?_, by decide⟩
  · by_cases h : o.batch_size ≤ 1 <;> simp [FileWriteOptions.Validate, h]
  · by_cases h : o.batch_size ≤ 1
    · simp [FileWriteOptions.Validate, h, not_lt.mpr h]
    · simp [FileWriteOptions.Validate, h, not_le.mp h]

/-- Claim C1 (counterexample): with `batch_size = 0` (which is ≤ 1 and
which `Validate` rejects), `MakeWriter` does not fail with an
invalid-configuration error: it returns a `FileWriter`. -/
theorem makeWriter_accepts_invalid_batch_size :
    (FileWriteOptions.mk 0).batch_size ≤ 1
    ∧ LanceFileFormat.Make.MakeWriter ⟨0⟩ ⟨["id"]⟩ ⟨0⟩ ⟨"out"⟩
        = .ok ⟨⟨["id"]⟩, ⟨0⟩, ⟨0⟩, ⟨"out"⟩⟩
    ∧ (FileWriteOptions.mk 0).Validate ≠ Status.OK := by
  refine ⟨by decide, rfl, by decide⟩

/-- Claim C1 (amended): `MakeWriter` performs no validation and returns
a Writer bound to its arguments for every write options value,
including invalid ones; the invalid-configuration check lives solely in
`FileWriteOptions::Validate`, which fails exactly when
`batch_size <= 1` and which `MakeWriter` never invokes. -/
theorem makeWriter_unvalidated_validate_iff :
    ∀ (fmt : LanceFileFormat) (dest : OutputStream) (schema : ArrowSchema)
      (opts : FileWriteOptions) (loc : FileLocator),
      fmt.MakeWriter dest schema opts loc = .ok ⟨schema, opts, dest, loc⟩
      ∧ (opts.Validate ≠ Status.OK ↔ opts.batch_size ≤ 1) := by
  intro fmt dest schema opts loc
  refine ⟨rfl, ?_⟩
  by_cases h : opts.batch_size ≤ 1 <;> simp [FileWriteOptions.Validate, h]

/-- Claim C4 (confirmed): `IsSupported` returns `true` for every
source, and never an error. -/
theorem isSupported_always_true :
    ∀ (fmt : LanceFileFormat) (source : FileSource),
      fmt.IsSupported source = .ok true := by
  intro fmt source
  rfl

/-- Claim C5 (confirmed): `Equals` holds exactly when the two type
names agree, and no other state of the format object (in particular the
manifest cache) influences the result. -/
theorem equals_iff_type_name_eq :
    ∀ (a : LanceFileFormat) (b : FileFormat),
      (a.Equals b = true ↔ a.type_name = b.type_name)
      ∧ ∀ a' : LanceFileFormat, a.Equals b = a'.Equals b := by
  intro a b
  refine ⟨?_, fun a' => rfl⟩
  simp [LanceFileFormat.Equals]

/-- Claim C6 (confirmed): both `type_name` methods return the constant
"lance", and `IsLanceFragmentScanOptions` holds exactly when the
argument's type name equals that constant. -/
theorem type_name_constant_lance :
    kLanceFormatTypeName = "lance"
    ∧ (∀ f : LanceFileFormat, f.type_name = "lance")
    ∧ (∀ o : LanceFragmentScanOptions, o.type_name = "lance")
    ∧ ∀ fso : FragmentScanOptions,
        IsLanceFragmentScanOptions fso = true ↔ fso.type_name = kLanceFormatTypeName := by
  refine ⟨rfl, fun f => rfl, fun o => rfl, fun fso => ?_⟩
  simp [IsLanceFragmentScanOptions]

/-- Claim C3 (confirmed): a first successful `Inspect` on an empty
cache loads the manifest, caches it, and returns its schema; with a
cached manifest, `Inspect` returns that schema and leaves the object
unchanged; and `ScanBatchesAsync` hands the cached manifest to the
reader it constructs (even when re-loading from the file would fail). -/
theorem inspect_memoizes_and_scan_reuses_cache :
    (∀ (fmt : LanceFileFormat) (source : FileSource) (infile : InFile) (m : Manifest),
       fmt.impl.manifest = none → source.openResult = .ok infile →
       infile.readerOpenResult = .ok m →
       fmt.Inspect source = (m.schema.ToArrow, ⟨⟨some m⟩⟩))
    ∧ (∀ (fmt : LanceFileFormat) (m : Manifest) (source : FileSource),
       fmt.impl.manifest = some m →
       fmt.Inspect source = (m.schema.ToArrow, fmt))
    ∧ (∀ (fmt : LanceFileFormat) (m : Manifest) (opts : ScanOptions)
         (file : FileFragment) (infile : InFile),
       fmt.impl.manifest = some m →
       file.source.openResult = .ok infile →
       (fmt.ScanBatchesAsync opts file).1 = .ok ⟨⟨⟨m⟩, opts, GetCpuThreadPool⟩⟩) := by
  refine ⟨?_, ?_, ?_⟩
  · intro fmt source infile m h1 h2 h3
    simp [LanceFileFormat.Inspect, h1, h2, h3]
  · intro fmt m source h1
    simp [LanceFileFormat.Inspect, h1]
  · intro fmt m opts file infile h1 h2
    simp [LanceFileFormat.ScanBatchesAsync, h1, h2, FileReader.Make]

/-- Witness for C3: a concrete first `Inspect` caches the loaded
manifest, a concrete second `Inspect` returns the cached schema from a
dead source, and a concrete scan reuses the cache on a file whose own
manifest load would fail. -/
theorem inspect_memoizes_and_scan_reuses_cache_witness :
    (LanceFileFormat.Inspect ⟨⟨none⟩⟩ ⟨.ok ⟨.ok ⟨⟨.ok ⟨["a"]⟩⟩⟩⟩⟩
       = (Except.ok ⟨["a"]⟩, ⟨⟨some ⟨⟨.ok ⟨["a"]⟩⟩⟩⟩⟩))
    ∧ (LanceFileFormat.Inspect ⟨⟨some ⟨⟨.ok ⟨["a"]⟩⟩⟩⟩⟩ ⟨.error (.IOErr "gone")⟩
       = (Except.ok ⟨["a"]⟩, ⟨⟨some ⟨⟨.ok ⟨["a"]⟩⟩⟩⟩⟩))
    ∧ ((LanceFileFormat.ScanBatchesAsync ⟨⟨some ⟨⟨.ok ⟨["a"]⟩⟩⟩⟩⟩ ⟨1024⟩
          ⟨⟨.ok ⟨.error (.IOErr "corrupt")⟩⟩⟩).1
       = .ok ⟨⟨⟨⟨⟨.ok ⟨["a"]⟩⟩⟩⟩, ⟨1024⟩, GetCpuThreadPool⟩⟩) :=
  ⟨inspect_memoizes_and_scan_reuses_cache.1 ⟨⟨none⟩⟩ _ _ ⟨⟨.ok ⟨["a"]⟩⟩⟩ rfl rfl rfl,
   inspect_memoizes_and_scan_reuses_cache.2.1 _ ⟨⟨.ok ⟨["a"]⟩⟩⟩ _ rfl,
   inspect_memoizes_and_scan_reuses_cache.2.2 _ ⟨⟨.ok ⟨["a"]⟩⟩⟩ _ _ _ rfl rfl⟩

/-- Claim C9 (confirmed): once a manifest is cached, `Inspect` neither
depends on nor touches its source argument: any two sources (including
one that cannot even be opened) give the identical result, namely the
cached manifest's schema with the object unchanged. -/
theorem inspect_ignores_source_once_cached :
    ∀ (fmt : LanceFileFormat) (m : Manifest), fmt.impl.manifest = some m →
      ∀ (src src' : FileSource),
        fmt.Inspect src = (m.schema.ToArrow, fmt)
        ∧ fmt.Inspect src = fmt.Inspect src' := by
  intro fmt m h src src'
  constructor
  · simp [LanceFileFormat.Inspect, h]
  · simp [LanceFileFormat.Inspect, h]

/-- Witness for C9: with a cached manifest, inspecting an unopenable
source and a different, healthy source both return the first manifest's
schema. -/
theorem inspect_ignores_source_once_cached_witness :
    (LanceFileFormat.Inspect ⟨⟨some ⟨⟨.ok ⟨["a"]⟩⟩⟩⟩⟩ ⟨.error (.IOErr "gone")⟩
       = (Except.ok ⟨["a"]⟩, ⟨⟨some ⟨⟨.ok ⟨["a"]⟩⟩⟩⟩⟩))
    ∧ (LanceFileFormat.Inspect ⟨⟨some ⟨⟨.ok ⟨["a"]⟩⟩⟩⟩⟩ ⟨.error (.IOErr "gone")⟩
       = LanceFileFormat.Inspect ⟨⟨some ⟨⟨.ok ⟨["a"]⟩⟩⟩⟩⟩ ⟨.ok ⟨.ok ⟨⟨.ok ⟨["b"]⟩⟩⟩⟩⟩) :=
  inspect_ignores_source_once_cached ⟨⟨some ⟨⟨.ok ⟨["a"]⟩⟩⟩⟩⟩ _ rfl _ _

/-- Claim C10 (confirmed): `ScanBatchesAsync` never changes the cached
manifest (the format object after the call is the one before it), and
on an empty cache the reader is built from the file's own manifest
load. -/
theorem scanBatchesAsync_preserves_cache :
    ∀ (fmt : LanceFileFormat) (opts : ScanOptions) (file : FileFragment),
      (fmt.ScanBatchesAsync opts file).2 = fmt
      ∧ (fmt.impl.manifest = none →
         ∀ (infile : InFile) (m : Manifest),
           file.source.openResult = .ok infile →
           infile.readerOpenResult = .ok m →
           (fmt.ScanBatchesAsync opts file).1 = .ok ⟨⟨⟨m⟩, opts, GetCpuThreadPool⟩⟩) := by
  intro fmt opts file
  constructor
  · rfl
  · intro h1 infile m h2 h3
    simp [LanceFileFormat.ScanBatchesAsync, h1, h2, h3, FileReader.Make]

/-- Witness for C10: a concrete scan on a fresh format object leaves
the cache empty and constructs the reader from the manifest the file
itself yields. -/
theorem scanBatchesAsync_preserves_cache_witness :
    ((LanceFileFormat.Make.ScanBatchesAsync ⟨4⟩ ⟨⟨.ok ⟨.ok ⟨⟨.ok ⟨["a"]⟩⟩⟩⟩⟩⟩).2
       = LanceFileFormat.Make)
    ∧ ((LanceFileFormat.Make.ScanBatchesAsync ⟨4⟩ ⟨⟨.ok ⟨.ok ⟨⟨.ok ⟨["a"]⟩⟩⟩⟩⟩⟩).1
       = .ok ⟨⟨⟨⟨⟨.ok ⟨["a"]⟩⟩⟩⟩, ⟨4⟩, GetCpuThreadPool⟩⟩) :=
  ⟨(scanBatchesAsync_preserves_cache _ _ _).1,
   (scanBatchesAsync_preserves_cache _ _ _).2 rfl _ _ rfl rfl⟩

/-- Claim C8 (confirmed): every successfully constructed scan is
scheduled on the process-wide CPU pool, so any two scans - over any
format objects, options and files - share one pool. -/
theorem scan_uses_process_wide_pool :
    ∀ (fmt : LanceFileFormat) (opts : ScanOptions) (file : FileFragment)
      (gen : RecordBatchGenerator),
      (fmt.ScanBatchesAsync opts file).1 = .ok gen →
      gen.batchReader.pool = GetCpuThreadPool
      ∧ ∀ (fmt' : LanceFileFormat) (opts' : ScanOptions) (file' : FileFragment)
          (gen' : RecordBatchGenerator),
          (fmt'.ScanBatchesAsync opts' file').1 = .ok gen' →
          gen.batchReader.pool = gen'.batchReader.pool := by
  have aux : ∀ (fmt : LanceFileFormat) (opts : ScanOptions) (file : FileFragment)
      (gen : RecordBatchGenerator),
      (fmt.ScanBatchesAsync opts file).1 = .ok gen →
      gen.batchReader.pool = GetCpuThreadPool := by
    intro fmt opts file gen h
    simp only [LanceFileFormat.ScanBatchesAsync] at h
    split at h
    · exact absurd h (by simp)
    · split at h
      · exact absurd h (by simp)
      · cases h
        rfl
  intro fmt opts file gen h
  refine ⟨aux _ _ _ _ h, ?_⟩
  intro fmt' opts' file' gen' h'
  rw [aux _ _ _ _ h, aux _ _ _ _ h']

/-- Witness for C8: a concrete scan succeeds and its generator's pool
is the process-wide CPU pool. -/
theorem scan_uses_process_wide_pool_witness :
    ((LanceFileFormat.Make.ScanBatchesAsync ⟨4⟩ ⟨⟨.ok ⟨.ok ⟨⟨.ok ⟨["a"]⟩⟩⟩⟩⟩⟩).1
       = .ok ⟨⟨⟨⟨⟨.ok ⟨["a"]⟩⟩⟩⟩, ⟨4⟩, GetCpuThreadPool⟩⟩)
    ∧ (RecordBatchGenerator.mk ⟨⟨⟨⟨.ok ⟨["a"]⟩⟩⟩⟩, ⟨4⟩, GetCpuThreadPool⟩).batchReader.pool
       = GetCpuThreadPool :=
  ⟨rfl,
   (scan_uses_process_wide_pool LanceFileFormat.Make ⟨4⟩ ⟨⟨.ok ⟨.ok ⟨⟨.ok ⟨["a"]⟩⟩⟩⟩⟩⟩
      ⟨⟨⟨⟨⟨.ok ⟨["a"]⟩⟩⟩⟩, ⟨4⟩, GetCpuThreadPool⟩⟩ rfl).1⟩

/-- `readyRun` always produces a contiguous index interval starting at
`next`, made of completed indices, and stops - when fuel remains - only
right before an index that has not completed. -/
theorem readyRun_spec (arrived : List Nat) :
    ∀ (fuel next : Nat), ∃ k, k ≤ fuel
      ∧ readyRun arrived next fuel = List.range' next k
      ∧ (∀ j, j ∈ List.range' next k → j ∈ arrived)
      ∧ (k < fuel → next + k ∉ arrived) := by
  intro fuel
  induction fuel with
  | zero =>
    intro next
    exact ⟨0, Nat.le_refl 0, rfl, by simp, fun h => absurd h (by simp)⟩
  | succ fuel ih =>
    intro next
    by_cases h : next ∈ arrived
    · obtain ⟨k, hk, heq, hsub, hnot⟩ := ih (next + 1)
      refine ⟨k + 1, by omega, ?_, ?_, ?_⟩
      · simp [readyRun, h, heq, List.range'_succ]
      · intro j hj
        rw [List.range'_succ] at hj
        rcases List.mem_cons.mp hj with rfl | hj'
        · exact h
        · exact hsub j hj'
      · intro hlt
        have hres := hnot (by omega)
        have e : next + (k + 1) = next + 1 + k := by omega
        rw [e]
        exact hres
    · refine ⟨0, by omega, ?_, by simp, fun _ => by simpa using h⟩
      simp [readyRun, h]

/-- With more fuel than there are completed indices, `readyRun` is the
maximal ready run: the index right past it has not completed. -/
theorem readyRun_full (arrived : List Nat) (next : Nat) :
    ∃ k, readyRun arrived next (arrived.length + 1) = List.range' next k
      ∧ (∀ j, j ∈ List.range' next k → j ∈ arrived)
      ∧ next + k ∉ arrived := by
  obtain ⟨k, hk, heq, hsub, hnot⟩ := readyRun_spec arrived (arrived.length + 1) next
  refine ⟨k, heq, hsub, ?_⟩
  rcases Nat.lt_or_ge k (arrived.length + 1) with hlt | hge
  · exact hnot hlt
  · exfalso
    have hsubset : List.range' next k ⊆ arrived := fun j hj => hsub j hj
    have hnd : (List.range' next k).Nodup := List.nodup_range' next k
    have hlen := (hnd.subperm hsubset).length_le
    rw [List.length_range'] at hlen
    omega

/-- The delivery loop invariant: if the indices completed so far
together with the ones still pending are a permutation of `0..n-1`,
everything below `next` has completed and `next` itself has not, then
the loop delivers exactly the indices `next..n-1`, in order. -/
theorem releaseGo_spec (n : Nat) :
    ∀ (rest arrived : List Nat) (next : Nat),
      (arrived ++ rest).Perm (List.range n) →
      (∀ j, j < next → j ∈ arrived) →
      next ∉ arrived →
      releaseGo arrived next rest = List.range' next (n - next) := by
  intro rest
  induction rest with
  | nil =>
    intro arrived next hperm hlow hnot
    have harr : arrived.Perm (List.range n) := by simpa using hperm
    have h1 : ¬ next < n := fun hlt =>
      hnot (harr.mem_iff.mpr (List.mem_range.mpr hlt))
    have h2 : n - next = 0 := by omega
    rw [h2]
    rfl
  | cons i rest ih =>
    intro arrived next hperm hlow hnot
    obtain ⟨k, heq, hsub, hnotk⟩ := readyRun_full (i :: arrived) next
    have hperm' : ((i :: arrived) ++ rest).Perm (List.range n) :=
      List.perm_middle.symm.trans hperm
    have hbound : next + k ≤ n := by
      rcases Nat.eq_zero_or_pos k with rfl | hkpos
      · by_contra hgt
        push_neg at hgt
        have hnmem : n ∈ arrived := hlow n (by omega)
        have := List.mem_range.mp (hperm.subset (List.mem_append_left _ hnmem))
        omega
      · have hmem : next + (k - 1) ∈ List.range' next k := by
          simp only [List.mem_range'_1]
          omega
        have h1 : next + (k - 1) ∈ i :: arrived := hsub _ hmem
        have h2 := List.mem_range.mp (hperm'.subset (List.mem_append_left _ h1))
        omega
    have hlow' : ∀ j, j < next + k → j ∈ i :: arrived := by
      intro j hj
      rcases Nat.lt_or_ge j next with h1 | h1
      · exact List.mem_cons_of_mem _ (hlow j h1)
      · refine hsub j ?_
        simp only [List.mem_range'_1]
        omega
    have ihres := ih (i :: arrived) (next + k) hperm' hlow' hnotk
    simp only [releaseGo]
    rw [heq, List.length_range', ihres, List.range'_append_1]
    congr 1
    omega

/-- Whenever the completion order is a permutation of the work-unit
indices, the delivered order is exactly file order. -/
theorem deliveredOrder_eq (n : Nat) (order : List Nat)
    (h : order.Perm (List.range n)) :
    deliveredOrder order = List.range n := by
  have hmain := releaseGo_spec n order [] 0 (by simpa using h)
    (fun j hj => absurd hj (by simp)) (by simp)
  simpa [deliveredOrder, List.range_eq_range'] using hmain

/-- Claim C7 (confirmed): for every completion order of the scan's work
units - i.e. regardless of which worker thread finished first - the
generator delivers the batches in non-decreasing file row order (in
fact exactly file order), and concatenating the delivered batches' rows
reproduces the file's full row sequence. -/
theorem scan_delivery_in_file_order :
    ∀ (n : Nat) (completionOrder : List Nat) (batch : Nat → Batch),
      completionOrder.Perm (List.range n) →
      deliveredOrder completionOrder = List.range n
      ∧ List.Pairwise (· ≤ ·) (deliveredOrder completionOrder)
      ∧ deliveredBatches completionOrder batch = (List.range n).map batch
      ∧ (deliveredBatches completionOrder batch).flatMap Batch.rows
          = fileRows n batch := by
  intro n order batch h
  have hd := deliveredOrder_eq n order h
  refine ⟨hd, ?_, ?_, ?_⟩
  · rw [hd]
    exact List.pairwise_le_range n
  · simp [deliveredBatches, hd]
  · simp [deliveredBatches, hd, fileRows, List.flatMap_map]

/-- Witness for C7: the three work units of a concrete scan complete in
the order 2, 0, 1, yet the batches are delivered in file order 0, 1, 2
and their rows concatenate to the file's rows. -/
theorem scan_delivery_in_file_order_witness :
    ([2, 0, 1] : List Nat).Perm (List.range 3)
    ∧ deliveredOrder [2, 0, 1] = List.range 3
    ∧ deliveredBatches [2, 0, 1] (fun i => ⟨[i, i + 10]⟩)
        = [⟨[0, 10]⟩, ⟨[1, 11]⟩, ⟨[2, 12]⟩]
    ∧ fileRows 3 (fun i => ⟨[i, i + 10]⟩) = [0, 10, 1, 11, 2, 12] := by
  refine ⟨by decide,
    (scan_delivery_in_file_order 3 [2, 0, 1] (fun i => ⟨[i, i + 10]⟩) (by decide)).1,
    ?_, by decide⟩
  rw [(scan_delivery_in_file_order 3 [2, 0, 1] (fun i => ⟨[i, i + 10]⟩) (by decide)).2.2.1]
  decide

end Lance
